import Mathlib

/-!
Verification of the polywatch ingestion-and-scoring pipeline.

The heuristic algorithms are embedded from the pseudocode in
`src/development-spec.md` §10 (`compute_wallet_concentration`,
`compute_min_size_spam`, `compute_timing_regular`, `compute_ping_pong`,
`compute_round_trips`, `compute_whips`).  Components whose implementation
is not part of the repository sources (ScoreAggregator, TradeFetcher
dedup/widening, the report builder) are modelled from the specification
text and are marked as such in their doc comments.  Python floats are
modelled as rationals; a Python runtime error (ValueError /
ZeroDivisionError) is modelled as `Option.none`.

The dashboard report-loading layer (`src/frontend/lib/fetchReport.ts`) is
embedded at the end of the file with the filesystem and network results
abstracted into an environment record.
-/

namespace Polywatch

/-- Trade side, `development-spec.md` §2: `side` is BUY or SELL. -/
inductive Side where
  | BUY
  | SELL
deriving DecidableEq, Repr

/-- A single taker trade, `development-spec.md` §9 (`class Trade`) and
spec §3: wallet address, side, condition id, optional outcome index and
label, size (shares), price (implied probability in [0,1]), unix-second
timestamp and transaction hash.  Floats are modelled as rationals. -/
structure Trade where
  proxyWallet : String
  side : Side
  conditionId : String
  outcomeIndex : Option ℤ
  outcomeLabel : Option String
  size : ℚ
  price : ℚ
  timestamp : ℤ
  txHash : String
deriving DecidableEq, Repr

/-- Python `max` over a list: fails (ValueError) on the empty list,
hence `Option`. -/
def pyMax {α : Type} [LinearOrder α] : List α → Option α
  | [] => none
  | x :: xs => some (xs.foldl max x)

/-- StatUtils: arithmetic mean (`np.mean`).  Junk value 0 on the empty
list; every use below is guarded by a sample-size check. -/
def listMean (l : List ℚ) : ℚ := l.sum / (l.length : ℚ)

/-- StatUtils: population variance, the square of `np.std` (ddof = 0). -/
def listVariance (l : List ℚ) : ℚ :=
  ((l.map fun x => (x - listMean l) ^ 2).sum) / (l.length : ℚ)

/-- StatUtils: `np.median` — middle element of the sorted list, or the
average of the two middle elements for even length.  Junk value 0 on the
empty list; every use below is guarded. -/
def listMedian (l : List ℚ) : ℚ :=
  let s := l.insertionSort (· ≤ ·)
  if l.length % 2 = 1 then s.getD (l.length / 2) 0
  else (s.getD (l.length / 2 - 1) 0 + s.getD (l.length / 2) 0) / 2

/-- First-occurrence deduplication, the key order of a Python dict. -/
def dedupFirstAux {α : Type} [DecidableEq α] (seen : List α) : List α → List α
  | [] => []
  | x :: xs =>
    if x ∈ seen then dedupFirstAux seen xs
    else x :: dedupFirstAux (x :: seen) xs

/-- First-occurrence deduplication of a list. -/
def dedupFirst {α : Type} [DecidableEq α] (l : List α) : List α :=
  dedupFirstAux [] l

/-- Distinct wallets appearing in a trade list (the keys of the Python
`groupby(trades, key=lambda t: t.proxy_wallet)` dictionary, in first
insertion order). -/
def tradeWallets (trades : List Trade) : List String :=
  dedupFirst (trades.map (·.proxyWallet))

/-- Number of trades executed by one wallet (`len(v)` for the wallet's
group). -/
def walletTradeCount (trades : List Trade) (w : String) : ℕ :=
  (trades.filter fun t => t.proxyWallet = w).length

/-- Per-wallet trade counts, `compute_wallet_concentration` line
`counts = [len(v) for v in by_wallet.values()]`. -/
def walletCounts (trades : List Trade) : List ℕ :=
  (tradeWallets trades).map (walletTradeCount trades)

/-- Trade counts of every wallet other than `w`, used to state when a
wallet sits inside the top three by trade count. -/
def otherWalletCounts (trades : List Trade) (w : String) : List ℕ :=
  ((tradeWallets trades).filter fun v => v ≠ w).map (walletTradeCount trades)

/-- Third-largest entry of a counts list (0 when fewer than three
entries). -/
def thirdLargestCount (l : List ℕ) : ℕ :=
  (l.insertionSort (· ≥ ·)).getD 2 0

/-- Per-wallet notionals, `compute_wallet_concentration` line
`notionals = [sum(t.size * t.price for t in v) for v in by_wallet.values()]`. -/
def walletNotionals (trades : List Trade) : List ℚ :=
  (tradeWallets trades).map fun w =>
    ((trades.filter fun t => t.proxyWallet = w).map fun t => t.size * t.price).sum

/-- Largest element of a counts list divided by its total:
`max(counts)/sum(counts)`.  The `none` branch (empty list, where Python
`max` raises) yields junk 0. -/
def top1OfCounts (counts : List ℕ) : ℚ :=
  match pyMax counts with
  | some m => (m : ℚ) / (counts.sum : ℚ)
  | none => 0

/-- Top-three share of a counts list:
`sum(sorted(counts, reverse=True)[:3])/sum(counts)`. -/
def top3OfCounts (counts : List ℕ) : ℚ :=
  ((((counts.insertionSort (· ≥ ·)).take 3).sum : ℕ) : ℚ) / ((counts.sum : ℕ) : ℚ)

/-- Largest wallet share of trade count: `top1_ct = max(counts)/sum(counts)`. -/
def top1CountShare (trades : List Trade) : ℚ :=
  top1OfCounts (walletCounts trades)

/-- Largest wallet share of notional: `top1_nt = max(notionals)/sum(notionals)`. -/
def top1NotionalShare (trades : List Trade) : ℚ :=
  match pyMax (walletNotionals trades) with
  | some m => m / (walletNotionals trades).sum
  | none => 0

/-- Top-three wallet share of trade count:
`top3_ct = sum(sorted(counts, reverse=True)[:3])/sum(counts)`. -/
def top3CountShare (trades : List Trade) : ℚ :=
  top3OfCounts (walletCounts trades)

/-- Heuristic 1, `compute_wallet_concentration` (development-spec §10).
Returns `(h, intensity)`; `none` models the Python runtime errors: on an
empty trade list `max(counts)` raises ValueError, and when the total
notional is zero `max(notionals)/sum(notionals)` raises
ZeroDivisionError. -/
def computeWalletConcentration (trades : List Trade) : Option (Bool × ℚ) :=
  if trades = [] then none
  else if (walletNotionals trades).sum = 0 then none
  else
    some
      (decide ((0.60 ≤ top1CountShare trades ∧ 0.40 ≤ top1NotionalShare trades) ∨
          0.85 ≤ top3CountShare trades),
        max (top1CountShare trades) (top3CountShare trades))

/-- Heuristic 2, `compute_min_size_spam` (development-spec §10):
`frac = sum(t.size <= 1.5*order_min_size)/max(1,len(trades))`, triggered
when there are at least 100 trades and `frac > 0.75`. -/
def computeMinSizeSpam (trades : List Trade) (orderMinSize : ℚ) : Bool × ℚ :=
  let frac : ℚ :=
    ((trades.countP fun t => decide (t.size ≤ 1.5 * orderMinSize)) : ℚ) /
      (max 1 trades.length : ℕ)
  (decide (100 ≤ trades.length ∧ 0.75 < frac), frac)

/-- Trade timestamps in ascending order, `compute_timing_regular` line
`times = sorted(t.ts for t in trades)`. -/
def sortedTimes (trades : List Trade) : List ℤ :=
  (trades.map (·.timestamp)).insertionSort (· ≤ ·)

/-- Inter-arrival gaps, `gaps = [t2-t1 for t1,t2 in zip(times, times[1:])]`. -/
def timeGaps (trades : List Trade) : List ℤ :=
  let times := sortedTimes trades
  (times.zip times.tail).map fun p => p.2 - p.1

/-- Inter-arrival gaps as rationals (numpy promotes them to floats). -/
def gapListQ (trades : List Trade) : List ℚ :=
  (timeGaps trades).map fun g => (g : ℚ)

/-- Minute bucket of a unix timestamp (floor division, as in Python). -/
def minuteBucket (t : ℤ) : ℤ := Int.fdiv t 60

/-- StatUtils `resample_to_minute_count`: per-minute trade counts over the
span from the first to the last occupied minute, empty-minute buckets
included as 0.  Modelled from the spec (the helper body is not given in
the source): spec §2 names it time-bucket resampling and
`compute_timing_regular` reads its last entry as the current per-minute
rate. -/
def rpmSeries (trades : List Trade) : List ℚ :=
  match sortedTimes trades with
  | [] => []
  | t0 :: rest =>
    let first := minuteBucket t0
    let last := minuteBucket ((t0 :: rest).getLastD t0)
    (List.range (last - first + 1).toNat).map fun i =>
      (((t0 :: rest).countP fun t => decide (minuteBucket t = first + i)) : ℚ)

/-- Robust z-score of the current per-minute rate,
`z = (rpm_series[-1] - median) / (1.4826 * median(|rpm - median|))`.
When the MAD is zero the float code produces ±inf or nan; rational
division returns the junk value 0 there, and every statement below about
the z-score assumes a non-zero MAD. -/
def timingZ (trades : List Trade) : ℚ :=
  let rpm := rpmSeries trades
  let med := listMedian rpm
  (rpm.getLastD 0 - med) / (1.4826 * listMedian (rpm.map fun x => |x - med|))

/-- The MAD denominator used by `timingZ`, needed to state when the float
z-score is finite. -/
def timingMad (trades : List Trade) : ℚ :=
  let rpm := rpmSeries trades
  listMedian (rpm.map fun x => |x - listMedian rpm|)

/-- Regularity test `cv < 0.35` where
`cv = np.std(gaps)/max(1e-6, np.mean(gaps))`.  Both sides are
non-negative and the denominator is positive, so the test is equivalent
to comparing the squares; squaring removes the square root inside
`np.std` and keeps the predicate rational. -/
def timingCvOk (trades : List Trade) : Prop :=
  listVariance (gapListQ trades) <
    (0.35 * max 1e-6 (listMean (gapListQ trades))) ^ 2

instance (trades : List Trade) : Decidable (timingCvOk trades) := by
  unfold timingCvOk; infer_instance

/-- Heuristic 3, `compute_timing_regular` (development-spec §10): fewer
than 10 gaps returns `(0, 0.0)`; otherwise triggered when the CV test
passes and the robust z-score is at least 3.0, with the crude intensity
`max(0, 3.0 if h else 0)`. -/
def computeTimingRegular (trades : List Trade) : Bool × ℚ :=
  if (timeGaps trades).length < 10 then (false, 0)
  else
    let trig : Bool := decide (timingCvOk trades ∧ 3.0 ≤ timingZ trades)
    (trig, if trig then 3.0 else 0)

/-- Trades in timestamp order, `sorted(trades, key=lambda t: t.ts)`. -/
def sortByTime (trades : List Trade) : List Trade :=
  trades.insertionSort (fun a b => a.timestamp ≤ b.timestamp)

/-- One wallet's trades in timestamp order (a value of the Python
`groupby(sorted(trades, key=ts), key=wallet)` dictionary). -/
def walletSeq (trades : List Trade) (w : String) : List Trade :=
  (sortByTime trades).filter fun t => t.proxyWallet = w

/-- Consecutive pairs of a list, as produced by `zip(seq, seq[1:])` or by
the `prev` variable in `compute_ping_pong`. -/
def consecutivePairs {α : Type} (l : List α) : List (α × α) := l.zip l.tail

/-- Alternating-trade count of one wallet sequence, `compute_ping_pong`
inner loop: prior trade within 60s, opposite side, size within ±20% of
the prior size (denominator floored at 1e-6). -/
def pingPongAlt (seq : List Trade) : ℕ :=
  (consecutivePairs seq).countP fun p =>
    decide (p.2.timestamp - p.1.timestamp ≤ 60) &&
      decide (p.2.side ≠ p.1.side) &&
      decide (|p.2.size - p.1.size| / max p.1.size 1e-6 ≤ 0.2)

/-- Wallets marked by `compute_ping_pong`: non-empty sequence whose
alternating-trade share is at least 0.20. -/
def pingPongMarked (trades : List Trade) : List String :=
  (tradeWallets (sortByTime trades)).filter fun w =>
    let seq := walletSeq trades w
    decide (seq.length ≠ 0) &&
      decide ((0.20 : ℚ) ≤ (pingPongAlt seq : ℚ) / (seq.length : ℚ))

/-- Heuristic 4, `compute_ping_pong` (development-spec §10): fraction of
all trades executed by marked wallets, triggered at 0.40. -/
def computePingPong (trades : List Trade) : Bool × ℚ :=
  let marked := pingPongMarked trades
  let frac : ℚ :=
    ((trades.countP fun t => decide (t.proxyWallet ∈ marked)) : ℚ) /
      ((max 1 trades.length : ℕ) : ℚ)
  (decide ((0.40 : ℚ) ≤ frac), frac)

/-- Round-trip count of one wallet sequence, `compute_round_trips` inner
loop: reversal within 600s with price drift at most one tick. -/
def roundTripCount (seq : List Trade) (tickSize : ℚ) : ℕ :=
  (consecutivePairs seq).countP fun p =>
    decide (p.2.timestamp - p.1.timestamp ≤ 600) &&
      decide (p.1.side ≠ p.2.side) &&
      decide (|p.2.price - p.1.price| ≤ tickSize)

/-- Heuristic 5, `compute_round_trips` (development-spec §10): wallets
whose round-trip share reaches 0.33 contribute their whole sequence
length to `marked_frac`; triggered when the marked share reaches 0.30.
The pseudocode reads `tick_size` from the enclosing scope; it is passed
explicitly here. -/
def computeRoundTrips (trades : List Trade) (tickSize : ℚ) : Bool × ℚ :=
  let markedFrac : ℚ :=
    ((tradeWallets (sortByTime trades)).map fun w =>
      let seq := walletSeq trades w
      if seq.length ≠ 0 ∧
          (0.33 : ℚ) ≤ (roundTripCount seq tickSize : ℚ) / (seq.length : ℚ) then
        (seq.length : ℚ)
      else 0).sum
  let frac := markedFrac / ((max 1 trades.length : ℕ) : ℚ)
  (decide ((0.30 : ℚ) ≤ frac), frac)

/-- Minutes containing at least one trade, in ascending order. -/
def occupiedMinutes (trades : List Trade) : List ℤ :=
  (dedupFirst (trades.map fun t => minuteBucket t.timestamp)).insertionSort (· ≤ ·)

/-- Trades of one minute bucket. -/
def bucketTrades (trades : List Trade) (m : ℤ) : List Trade :=
  trades.filter fun t => minuteBucket t.timestamp = m

/-- Modelled from the spec: the `minute_vwap_series` helper of
`compute_whips` is not given in the source; spec §4.3 describes a
minute-bucketed VWAP series, taken here over the occupied minutes. -/
def minuteVwapSeries (trades : List Trade) : List (ℤ × ℚ) :=
  (occupiedMinutes trades).map fun m =>
    let b := bucketTrades trades m
    (m, ((b.map fun t => t.size * t.price).sum) / ((b.map (·.size)).sum))

/-- Modelled from the spec: the `detect_whips` helper is not given in the
source.  An episode starts at a one-minute VWAP move of at least 5
points and ends at the first later point within 5 minutes that reverts
at least 80% of the move (signed reversion towards the starting value). -/
def whipEpisodes (trades : List Trade) : List (ℤ × ℤ) :=
  let s := minuteVwapSeries trades
  (List.range s.length).filterMap fun i =>
    if i + 1 < s.length then
      let p₁ := s.getD i (0, 0)
      let p₂ := s.getD (i + 1) (0, 0)
      if p₂.1 - p₁.1 ≤ 1 ∧ (0.05 : ℚ) ≤ |p₂.2 - p₁.2| then
        match (s.drop (i + 2)).find? fun q =>
            decide (q.1 ≤ p₂.1 + 5) &&
              decide ((0.8 : ℚ) * (p₂.2 - p₁.2) ^ 2 ≤ (p₂.2 - q.2) * (p₂.2 - p₁.2)) with
        | some q => some (p₁.1, q.1)
        | none => none
      else none
    else none

/-- Episode qualification in `compute_whips`: at least 10 trades in the
episode window and a top-3 wallet share of at least 0.70. -/
def episodeQualifies (trades : List Trade) (ep : ℤ × ℤ) : Bool :=
  let sub := trades.filter fun t =>
    decide (ep.1 ≤ minuteBucket t.timestamp) &&
      decide (minuteBucket t.timestamp ≤ ep.2)
  decide (10 ≤ sub.length) && decide ((0.70 : ℚ) ≤ top3CountShare sub)

/-- Heuristic 6, `compute_whips` (development-spec §10): triggered at two
qualifying episodes, intensity the episode count. -/
def computeWhips (trades : List Trade) : Bool × ℚ :=
  let count := ((whipEpisodes trades).filter (episodeQualifies trades)).length
  (decide (2 ≤ count), (count : ℚ))

/-- A heuristic outcome as carried by the pipeline, spec §3:
name, triggered flag, intensity and a summary string. -/
structure HeuristicResult where
  name : String
  triggered : Bool
  intensity : ℚ
  summary : String
deriving DecidableEq, Repr

/-- Clamp to [0,1], spec §3: HeuristicResult intensity is a float in
[0,1] with uncapped input clamped. -/
def clamp01 (x : ℚ) : ℚ := max 0 (min 1 x)

/-- Wrap a raw heuristic output `(triggered, intensity)` into a
HeuristicResult, clamping the intensity per spec §3. -/
def mkHeuristicResult (name : String) (out : Bool × ℚ) (summary : String) :
    HeuristicResult :=
  ⟨name, out.1, clamp01 out.2, summary⟩

/-- Modelled from the spec: the ScoreAggregator trigger gate (spec §4.4);
only triggered heuristics contribute their intensity, untriggered ones
contribute 0 regardless of raw intensity. -/
def gatedIntensity (r : HeuristicResult) : ℚ :=
  if r.triggered then r.intensity else 0

/-- Modelled from the spec: the fixed ScoreAggregator weights of spec
§4.4 and development-spec §4, in heuristic order concentration,
min-size, timing, ping-pong, round-trip, whips. -/
def scoreWeights : List ℚ := [0.25, 0.20, 0.20, 0.15, 0.10, 0.10]

/-- Modelled from the spec: the ScoreAggregator implementation is not
among the sources; spec §4.4 defines
`score = 100 × Σ(weight_i × intensity_i)` over the gated intensities,
clamped to [0,100]. -/
def aggregateScore (conc minsz timing pong rtrip whips : HeuristicResult) : ℚ :=
  let contribs :=
    List.zipWith (fun w r => w * gatedIntensity r) scoreWeights
      [conc, minsz, timing, pong, rtrip, whips]
  max 0 (min 100 (100 * contribs.sum))

/-- Modelled from the spec: the label mapping of spec §4.4 and
development-spec §4 — below 35 normal, below 60 watch, else suspicious. -/
def labelFor (score : ℚ) : String :=
  if score < 35 then "normal" else if score < 60 then "watch" else "suspicious"

/-- Rank of a label in increasing severity, used to state monotonicity of
the label in the score. -/
def labelRank (label : String) : ℕ :=
  if label = "normal" then 0 else if label = "watch" then 1 else 2

/-- Dedup key of a trade, development-spec §11: the exact tuple
`(tx, conditionId, outcomeIndex, size, price, timestamp)`. -/
def tradeKey (t : Trade) : String × String × Option ℤ × ℚ × ℚ × ℤ :=
  (t.txHash, t.conditionId, t.outcomeIndex, t.size, t.price, t.timestamp)

/-- Dedup worker keeping the first trade of each key; `seen` holds the
keys already retained. -/
def dedupTradesAux :
    List (String × String × Option ℤ × ℚ × ℚ × ℤ) → List Trade → List Trade
  | _, [] => []
  | seen, t :: ts =>
    if tradeKey t ∈ seen then dedupTradesAux seen ts
    else t :: dedupTradesAux (tradeKey t :: seen) ts

/-- Modelled from the spec: TradeFetcher deduplication (spec §4.2 step 4,
development-spec §11) — drop exact duplicates of the full tuple, keeping
one retained trade per key. -/
def dedupTrades (trades : List Trade) : List Trade := dedupTradesAux [] trades

/-- Modelled from the spec: one full paginated fetch (spec §4.2 steps
1-4).  The upstream endpoint is abstracted as the full time-descending
trade list `history`; pagination with the cutoff stop rule accumulates
exactly the trades with `timestamp ≥ now - lookback`, which are then
deduplicated. -/
def fetchWindow (history : List Trade) (now lookback : ℤ) : List Trade :=
  dedupTrades (history.filter fun t => decide (now - lookback ≤ t.timestamp))

/-- Default widened lookback, spec §4.2: 72 hours. -/
def maxWidenedLookbackSeconds : ℤ := 72 * 3600

/-- Modelled from the spec: TradeFetcher with fallback widening (spec
§4.2 step 5, development-spec §11) — if the requested window yields zero
trades after dedup and `lookback < maxWidened`, retry the full fetch
once with the widened window; the second component is the reported
`actualLookbackSeconds`. -/
def fetchTrades (history : List Trade) (now lookback maxWidened : ℤ) :
    List Trade × ℤ :=
  if fetchWindow history now lookback = [] ∧ lookback < maxWidened then
    (fetchWindow history now maxWidened, maxWidened)
  else (fetchWindow history now lookback, lookback)

/-- Per-market metadata, spec §3 / development-spec §9 (`MarketMeta`). -/
structure MarketMeta where
  conditionId : String
  title : String
  orderMinSize : ℚ
  tickSize : ℚ
  outcomes : List String
deriving DecidableEq, Repr

/-- Event metadata, spec §3 (`EventMeta`). -/
structure EventMeta where
  id : ℤ
  slug : String
  title : String
  markets : List MarketMeta
deriving DecidableEq, Repr

/-- Per-outcome score block of the report, spec §3 (`OutcomeScore`). -/
structure OutcomeScore where
  outcomeLabel : String
  conditionId : String
  score : ℚ
  labelText : String
  heuristics : List HeuristicResult
deriving DecidableEq, Repr

/-- The pipeline output contract, spec §3 and §6 (`EventReport`). -/
structure EventReport where
  eventId : ℤ
  slug : String
  title : String
  score : ℚ
  labelText : String
  heuristics : List HeuristicResult
  outcomes : List OutcomeScore
  lookbackSeconds : ℤ
deriving DecidableEq, Repr

/-- Modelled from the spec: one scoring pass over a trade scope (spec §2
data flow) — run the six heuristics, clamp intensities, aggregate.
`none` propagates a heuristic runtime error. -/
def scoreScope (trades : List Trade) (orderMinSize tickSize : ℚ) :
    Option (ℚ × List HeuristicResult) :=
  (computeWalletConcentration trades).map fun conc =>
    let c := mkHeuristicResult "wallet_concentration" conc "wallet concentration"
    let m := mkHeuristicResult "min_size_spam" (computeMinSizeSpam trades orderMinSize)
      "min-size spamming"
    let t := mkHeuristicResult "timing_regularity" (computeTimingRegular trades)
      "timing regularity"
    let p := mkHeuristicResult "ping_pong" (computePingPong trades) "ping-pong"
    let r := mkHeuristicResult "round_trips" (computeRoundTrips trades tickSize)
      "fast round-trips"
    let w := mkHeuristicResult "price_whips" (computeWhips trades) "price whips"
    (aggregateScore c m t p r w, [c, m, t, p, r, w])

/-- Modelled from the spec: the report builder (spec §2 data flow) — one
event-level scoring pass over the full trade set and one pass per
outcome-filtered subset, with the actual lookback recorded.  The
event-level pass takes order-min-size and tick from the first market. -/
def buildEventReport (meta : EventMeta) (trades : List Trade) (lookback : ℤ) :
    Option EventReport := do
  let oms := ((meta.markets.head?).map (·.orderMinSize)).getD 0
  let tick := ((meta.markets.head?).map (·.tickSize)).getD 0
  let ev ← scoreScope trades oms tick
  let outs ← meta.markets.mapM fun mkt =>
    (scoreScope (trades.filter fun t => t.conditionId = mkt.conditionId)
        mkt.orderMinSize mkt.tickSize).map fun sc =>
      OutcomeScore.mk (mkt.outcomes.headD mkt.title) mkt.conditionId sc.1
        (labelFor sc.1) sc.2
  some ⟨meta.id, meta.slug, meta.title, ev.1, labelFor ev.1, ev.2, outs, lookback⟩

/-- Dashboard report index entry, `src/frontend/lib/types.ts` fields used
by `fetchReport.ts`. -/
structure ReportIndexEntry where
  slug : String
  score : ℚ
  tradeCount : ℕ
deriving DecidableEq, Repr

/-- Dashboard report index, `src/frontend/lib/fetchReport.ts`. -/
structure ReportIndex where
  generatedAt : String
  reports : List ReportIndexEntry
deriving DecidableEq, Repr

/-- A report JSON payload; its contents are irrelevant to the loading
logic under verification. -/
structure ReportPayload where
  body : String
deriving DecidableEq, Repr

/-- Result of reading a local JSON file in `fetchReport.ts`:
found, missing (`ENOENT`, mapped to null), or another I/O error
(rethrown). -/
inductive LocalRead (α : Type) where
  | found (a : α)
  | enoent
  | ioError (msg : String)
deriving DecidableEq

/-- Environment of one `fetchReport.ts` call: the `REPORTS_BASE_URL`
setting and the outcomes of the remote fetches and local file reads.
The module-level caches only memoize successful results between calls
and do not change the value of a single call, so they are not modelled. -/
structure ReportsEnv where
  baseUrl : Option String
  remoteIndex : Except String ReportIndex
  localIndex : LocalRead ReportIndex
  remoteReport : String → Except String ReportPayload
  localReport : String → LocalRead ReportPayload

/-- The `EMPTY_REPORT_INDEX` constant of `fetchReport.ts`: epoch
timestamp and an empty reports list. -/
def emptyReportIndex : ReportIndex := ⟨"1970-01-01T00:00:00.000Z", []⟩

/-- `getReportIndex` (`fetchReport.ts` lines 64-79): try the remote index
when a base URL is configured, swallowing any remote error; then the
local index file (null on ENOENT, rethrow otherwise); finally the empty
index. -/
def getReportIndex (env : ReportsEnv) : Except String ReportIndex :=
  match env.baseUrl, env.remoteIndex with
  | some _, .ok i => .ok i
  | _, _ =>
    match env.localIndex with
    | .found i => .ok i
    | .enoent => .ok emptyReportIndex
    | .ioError m => .error m

/-- `getReport` (`fetchReport.ts` lines 88-107): try the remote report
when a base URL is configured, swallowing any remote error; then the
local file; when both are missing, throw an Error whose message depends
on whether a base URL was configured. -/
def getReport (env : ReportsEnv) (slug : String) : Except String ReportPayload :=
  match env.baseUrl, env.remoteReport slug with
  | some _, .ok p => .ok p
  | _, _ =>
    match env.localReport slug with
    | .found p => .ok p
    | .enoent =>
      .error (match env.baseUrl with
        | some _ => s!"Report {slug} not found remotely or locally."
        | none => s!"Report {slug} not found locally. Run the exporter or set REPORTS_BASE_URL.")
    | .ioError m => .error m

/-- Shorthand constructor for the concrete trades used by the witnesses
and counterexamples below. -/
def mkTrade (w : String) (ts : ℤ) (sz pr : ℚ) : Trade :=
  ⟨w, Side.BUY, "cond", none, none, sz, pr, ts, "tx"⟩

/-- A run of `n` unit-size trades by one wallet at one price, one second
apart. -/
def mkTradeRun (w : String) (t0 : ℤ) (n : ℕ) (pr : ℚ) : List Trade :=
  (List.range n).map fun i => mkTrade w (t0 + (i : ℤ)) 1 pr

/-- 31 trades: wallets a, b and c with 10 trades each and wallet d with
one trade. -/
def concL31 : List Trade :=
  mkTradeRun "a" 0 10 (1/2) ++ mkTradeRun "b" 100 10 (1/2) ++
    mkTradeRun "c" 200 10 (1/2) ++ mkTradeRun "d" 300 1 (1/2)

/-- The same 31 trades plus one more trade by wallet d: wallet d's trade
share rises while every other wallet's trades stay fixed. -/
def concL32 : List Trade := concL31 ++ [mkTrade "d" 400 1 (1/2)]

/-- 34 trades with wallet counts 10, 9, 8 and 7: wallet b holds the
second-largest count, so one more trade by b keeps it inside the top
three. -/
def concL34 : List Trade :=
  mkTradeRun "a" 0 10 (1/2) ++ mkTradeRun "b" 100 9 (1/2) ++
    mkTradeRun "c" 200 8 (1/2) ++ mkTradeRun "d" 300 7 (1/2)

/-- A 20-trade instance of the spec §8 concentration scenario at the same
shares: wallet a executes 13 of 20 trades (65% trade share) and half the
notional. -/
def concScenario : List Trade :=
  mkTradeRun "a" 0 13 (1/2) ++ mkTradeRun "b" 1000 7 (13/14)

/-- 24 trades whose inter-arrival gaps are irregular (CV far above 0.35)
while the last minute holds 9 trades, giving a positive robust z-score
with non-zero MAD. -/
def exTiming : List Trade :=
  ([0, 60, 90, 120, 180, 210, 240, 300, 330, 360, 420, 450, 480, 540, 570,
      600, 605, 610, 615, 620, 625, 630, 635, 640] : List ℤ).map fun ts =>
    mkTrade "a" ts 1 (1/2)

/-- A trade history holding one trade at second 1000, outside a 1h window
ending at second 200000 but inside the 72h widened window. -/
def fetchHistoryEx : List Trade := [mkTrade "a" 1000 1 (1/2)]

/-- A history with an exact duplicate pair and one further trade. -/
def fetchDupHistory : List Trade :=
  [mkTrade "a" 1000 1 (1/2), mkTrade "a" 1000 1 (1/2), mkTrade "b" 2000 1 (1/2)]

/-- A one-market event metadata instance. -/
def metaEx : EventMeta :=
  ⟨1, "ev", "Event", [⟨"cond", "Market", 1, 1/100, ["Yes", "No"]⟩]⟩

/-- Loader environment with no base URL and no local files. -/
def envEx : ReportsEnv :=
  ⟨none, Except.error "remote disabled", LocalRead.enoent,
    fun _ => Except.error "remote disabled", fun _ => LocalRead.enoent⟩

/-- An untriggered heuristic result. -/
def hrEx : HeuristicResult := ⟨"h", false, 0, ""⟩

/-! Shared helper lemmas. -/

lemma aggregateScore_nonneg (c m t p r w : HeuristicResult) :
    0 ≤ aggregateScore c m t p r w :=
  le_max_left 0 _

lemma aggregateScore_le_100 (c m t p r w : HeuristicResult) :
    aggregateScore c m t p r w ≤ 100 :=
  max_le (by norm_num) (min_le_left _ _)

lemma labelRank_normal : labelRank "normal" = 0 := rfl

lemma labelRank_watch : labelRank "watch" = 1 := rfl

lemma labelRank_suspicious : labelRank "suspicious" = 2 := rfl

lemma computeWalletConcentration_spec (trades : List Trade) (hne : trades ≠ [])
    (hnot : (walletNotionals trades).sum ≠ 0) :
    computeWalletConcentration trades =
      some (decide ((0.60 ≤ top1CountShare trades ∧ 0.40 ≤ top1NotionalShare trades) ∨
          0.85 ≤ top3CountShare trades),
        max (top1CountShare trades) (top3CountShare trades)) := by
  unfold computeWalletConcentration
  rw [if_neg hne, if_neg hnot]

lemma take_sum_le (n : ℕ) (l : List ℕ) : (l.take n).sum ≤ l.sum := by
  conv_rhs => rw [← List.take_append_drop n l]
  rw [List.sum_append]
  exact Nat.le_add_right _ _

lemma sum_insertionSortDesc (l : List ℕ) :
    (l.insertionSort (· ≥ ·)).sum = l.sum :=
  (List.perm_insertionSort _ l).sum_eq

lemma share_step_le (T S : ℕ) (hTS : T ≤ S) :
    (T : ℚ) / (S : ℚ) ≤ ((T : ℚ) + 1) / ((S : ℚ) + 1) := by
  rcases Nat.eq_zero_or_pos S with hS | hS
  · subst hS
    interval_cases T
    norm_num
  · have hSq : (0 : ℚ) < (S : ℚ) := by exact_mod_cast hS
    have hT : (T : ℚ) ≤ (S : ℚ) := by exact_mod_cast hTS
    rw [div_le_div_iff hSq (by linarith)]
    ring_nf
    nlinarith

lemma dedupFirstAux_congr {α : Type} [DecidableEq α] (l : List α) :
    ∀ seen seen' : List α, (∀ y, y ∈ seen ↔ y ∈ seen') →
      dedupFirstAux seen l = dedupFirstAux seen' l := by
  induction l with
  | nil => intro _ _ _; rfl
  | cons x xs ih =>
    intro seen seen' h
    unfold dedupFirstAux
    by_cases hx : x ∈ seen
    · rw [if_pos hx, if_pos ((h x).1 hx)]
      exact ih seen seen' h
    · rw [if_neg hx, if_neg (fun hc => hx ((h x).2 hc))]
      exact congrArg (x :: ·)
        (ih (x :: seen) (x :: seen') (by intro y; rw [List.mem_cons, List.mem_cons, h y]))

lemma dedupFirstAux_cons_seen {α : Type} [DecidableEq α] (l : List α) :
    ∀ (seen : List α) (a : α),
      dedupFirstAux (a :: seen) l = (dedupFirstAux seen l).filter (fun y => y ≠ a) := by
  induction l with
  | nil => intro _ _; rfl
  | cons x xs ih =>
    intro seen a
    by_cases hxa : x = a
    · subst hxa
      unfold dedupFirstAux
      rw [if_pos (List.mem_cons_self x seen)]
      by_cases hx : x ∈ seen
      · rw [if_pos hx]
        exact ih seen x
      · rw [if_neg hx, ih seen x, List.filter_cons]
        simp [List.filter_filter]
    · unfold dedupFirstAux
      by_cases hx : x ∈ seen
      · rw [if_pos (List.mem_cons_of_mem a hx), if_pos hx]
        exact ih seen a
      · rw [if_neg (by intro hc; rcases List.mem_cons.1 hc with h | h; exact hxa h; exact hx h),
          if_neg hx, List.filter_cons, if_pos (decide_eq_true hxa)]
        refine congrArg (x :: ·) ?_
        rw [dedupFirstAux_congr xs (x :: a :: seen) (a :: x :: seen)
          (by intro y; simp only [List.mem_cons]; tauto)]
        exact ih (x :: seen) a

lemma dedupFirstAux_nodup {α : Type} [DecidableEq α] (l : List α) :
    ∀ seen : List α, (dedupFirstAux seen l).Nodup ∧
      ∀ x ∈ dedupFirstAux seen l, x ∉ seen := by
  induction l with
  | nil => intro seen; exact ⟨List.nodup_nil, by simp [dedupFirstAux]⟩
  | cons x xs ih =>
    intro seen
    unfold dedupFirstAux
    by_cases hx : x ∈ seen
    · rw [if_pos hx]
      exact ih seen
    · rw [if_neg hx]
      obtain ⟨hnd, hni⟩ := ih (x :: seen)
      refine ⟨List.nodup_cons.2 ⟨fun hc => hni x hc (List.mem_cons_self _ _), hnd⟩, ?_⟩
      intro u hu
      rcases List.mem_cons.1 hu with rfl | hmem2
      · exact hx
      · intro hc
        exact hni u hmem2 (List.mem_cons_of_mem _ hc)

lemma foldl_max_mem (x : ℕ) (xs : List ℕ) : xs.foldl max x ∈ x :: xs := by
  induction xs generalizing x with
  | nil => simp
  | cons y ys ih =>
    simp only [List.foldl_cons]
    rcases List.mem_cons.1 (ih (max x y)) with h | h
    · rw [h]
      rcases max_choice x y with h2 | h2 <;> rw [h2] <;> simp
    · exact List.mem_cons_of_mem _ (List.mem_cons_of_mem _ h)

lemma le_foldl_max (x : ℕ) (xs : List ℕ) : ∀ y ∈ x :: xs, y ≤ xs.foldl max x := by
  induction xs generalizing x with
  | nil =>
    intro y hy
    have hyx : y = x := by simpa using hy
    subst hyx
    exact le_refl y
  | cons z zs ih =>
    intro y hy
    simp only [List.foldl_cons]
    rcases List.mem_cons.1 hy with rfl | hy2
    · exact le_trans (le_max_left y z) (ih (max y z) _ (List.mem_cons_self _ _))
    · rcases List.mem_cons.1 hy2 with rfl | hy3
      · exact le_trans (le_max_right x y) (ih (max x y) _ (List.mem_cons_self _ _))
      · exact ih (max x z) y (List.mem_cons_of_mem _ hy3)

lemma pyMax_perm {l l' : List ℕ} (h : l.Perm l') : pyMax l = pyMax l' := by
  cases l with
  | nil =>
    have h0 : l' = [] := h.symm.eq_nil
    rw [h0]
  | cons x xs =>
    cases l' with
    | nil => exact absurd h.eq_nil (by simp)
    | cons y ys =>
      have h1 : xs.foldl max x ≤ ys.foldl max y :=
        le_foldl_max y ys _ (h.mem_iff.1 (foldl_max_mem x xs))
      have h2 : ys.foldl max y ≤ xs.foldl max x :=
        le_foldl_max x xs _ (h.mem_iff.2 (foldl_max_mem y ys))
      show some _ = some _
      rw [le_antisymm h1 h2]

lemma insertionSortDesc_perm_congr {l l' : List ℕ} (h : l.Perm l') :
    l.insertionSort (· ≥ ·) = l'.insertionSort (· ≥ ·) :=
  List.eq_of_perm_of_sorted
    ((List.perm_insertionSort _ l).trans (h.trans (List.perm_insertionSort _ l').symm))
    (List.sorted_insertionSort _ l) (List.sorted_insertionSort _ l')

lemma top1OfCounts_congr {l l' : List ℕ} (h : l.Perm l') :
    top1OfCounts l = top1OfCounts l' := by
  unfold top1OfCounts
  rw [pyMax_perm h, h.sum_eq]

lemma top3OfCounts_congr {l l' : List ℕ} (h : l.Perm l') :
    top3OfCounts l = top3OfCounts l' := by
  unfold top3OfCounts
  rw [insertionSortDesc_perm_congr h, h.sum_eq]

lemma top1_le_top3 (l : List ℕ) : top1OfCounts l ≤ top3OfCounts l := by
  cases l with
  | nil => simp [top1OfCounts, top3OfCounts, pyMax, List.insertionSort]
  | cons x xs =>
    have hM : pyMax (x :: xs) = some (xs.foldl max x) := rfl
    have hnum : xs.foldl max x ≤ (((x :: xs).insertionSort (· ≥ ·)).take 3).sum := by
      cases hs : (x :: xs).insertionSort (· ≥ ·) with
      | nil =>
        exfalso
        have hp := List.perm_insertionSort (· ≥ ·) (x :: xs)
        rw [hs] at hp
        exact absurd hp.symm.eq_nil (by simp)
      | cons h rest =>
        have hperm := List.perm_insertionSort (· ≥ ·) (x :: xs)
        rw [hs] at hperm
        have hsorted := List.sorted_insertionSort (· ≥ ·) (x :: xs)
        rw [hs] at hsorted
        have hhm : h = xs.foldl max x := by
          apply le_antisymm
          · exact le_foldl_max x xs h (hperm.mem_iff.1 (List.mem_cons_self _ _))
          · rcases List.mem_cons.1 (hperm.mem_iff.2 (foldl_max_mem x xs)) with heq | hm2
            · exact le_of_eq heq
            · exact List.rel_of_sorted_cons hsorted _ hm2
        rw [List.take_succ_cons, List.sum_cons, hhm]
        exact Nat.le_add_right _ _
    unfold top1OfCounts top3OfCounts
    rw [hM]
    rcases Nat.eq_zero_or_pos ((x :: xs).sum) with hz | hp
    · rw [hz]
      simp
    · have hpos : (0 : ℚ) < (((x :: xs).sum : ℕ) : ℚ) := by exact_mod_cast hp
      exact (div_le_div_right hpos).2 (by exact_mod_cast hnum)

lemma orderedInsert_take3_sum (x : ℕ) (s : List ℕ) (h : s.getD 2 0 ≤ x) :
    ((List.orderedInsert (· ≥ ·) x s).take 3).sum = x + (s.take 2).sum := by
  match s with
  | [] => simp [List.orderedInsert]
  | [a] =>
    simp only [List.orderedInsert]
    split_ifs <;> simp <;> omega
  | [a, b] =>
    simp only [List.orderedInsert]
    split_ifs <;> simp <;> omega
  | a :: b :: c :: rest =>
    simp only [List.getD_cons_succ, List.getD_cons_zero] at h
    simp only [List.orderedInsert]
    split_ifs with h1 h2 h3 <;> simp <;> omega

lemma top3OfCounts_head_eq (x : ℕ) (R : List ℕ) (h : thirdLargestCount R ≤ x) :
    top3OfCounts (x :: R) =
      (((x + ((R.insertionSort (· ≥ ·)).take 2).sum : ℕ) : ℚ)) /
        (((x :: R).sum : ℕ) : ℚ) := by
  unfold top3OfCounts
  have hins : (x :: R).insertionSort (· ≥ ·) =
      List.orderedInsert (· ≥ ·) x (R.insertionSort (· ≥ ·)) := rfl
  rw [hins, orderedInsert_take3_sum x _ h]

lemma top3OfCounts_bump (x : ℕ) (R : List ℕ) (h : thirdLargestCount R ≤ x) :
    top3OfCounts (x :: R) ≤ top3OfCounts ((x + 1) :: R) := by
  rw [top3OfCounts_head_eq x R h, top3OfCounts_head_eq (x + 1) R (h.trans (Nat.le_succ x))]
  have hT2 : ((R.insertionSort (· ≥ ·)).take 2).sum ≤ R.sum :=
    (take_sum_le 2 _).trans (le_of_eq (sum_insertionSortDesc R))
  have hs := share_step_le (x + ((R.insertionSort (· ≥ ·)).take 2).sum) ((x :: R).sum)
    (by rw [List.sum_cons]; exact Nat.add_le_add_left hT2 x)
  convert hs using 2 <;> push_cast [List.sum_cons] <;> ring

lemma dedupFirst_cons {α : Type} [DecidableEq α] (x : α) (l : List α) :
    dedupFirst (x :: l) = x :: (dedupFirst l).filter (fun y => y ≠ x) := by
  unfold dedupFirst
  rw [show dedupFirstAux ([] : List α) (x :: l) = x :: dedupFirstAux [x] l from by
    simp [dedupFirstAux]]
  rw [dedupFirstAux_cons_seen l [] x]

lemma tradeWallets_cons (t : Trade) (trades : List Trade) :
    tradeWallets (t :: trades) =
      t.proxyWallet :: (tradeWallets trades).filter (fun v => v ≠ t.proxyWallet) := by
  unfold tradeWallets
  rw [List.map_cons, dedupFirst_cons]

lemma walletTradeCount_cons_self (t : Trade) (trades : List Trade) :
    walletTradeCount (t :: trades) t.proxyWallet =
      walletTradeCount trades t.proxyWallet + 1 := by
  unfold walletTradeCount
  rw [List.filter_cons, if_pos (by simp)]
  simp [Nat.add_comm]

lemma walletTradeCount_cons_ne (t : Trade) (trades : List Trade) (w : String)
    (h : w ≠ t.proxyWallet) :
    walletTradeCount (t :: trades) w = walletTradeCount trades w := by
  unfold walletTradeCount
  rw [List.filter_cons, if_neg (by simpa using Ne.symm h)]

lemma walletCounts_cons (t : Trade) (trades : List Trade) :
    walletCounts (t :: trades) =
      (walletTradeCount trades t.proxyWallet + 1) ::
        otherWalletCounts trades t.proxyWallet := by
  unfold walletCounts otherWalletCounts
  rw [tradeWallets_cons, List.map_cons, walletTradeCount_cons_self]
  refine congrArg (_ :: ·) ?_
  apply List.map_congr_left
  intro v hv
  have hvne : v ≠ t.proxyWallet := by simpa using List.of_mem_filter hv
  exact walletTradeCount_cons_ne t trades v hvne

lemma walletCounts_perm_decomp (t : Trade) (trades : List Trade)
    (hmem : t.proxyWallet ∈ tradeWallets trades) :
    (walletCounts trades).Perm
      (walletTradeCount trades t.proxyWallet ::
        otherWalletCounts trades t.proxyWallet) := by
  unfold walletCounts otherWalletCounts
  have hnd : (tradeWallets trades).Nodup := by
    unfold tradeWallets dedupFirst
    exact (dedupFirstAux_nodup _ _).1
  have hperm := List.perm_cons_erase hmem
  have herase : (tradeWallets trades).erase t.proxyWallet =
      (tradeWallets trades).filter (fun v => v ≠ t.proxyWallet) := by
    rw [hnd.erase_eq_filter]
    apply List.filter_congr
    intro v _
    by_cases hv : v = t.proxyWallet <;> simp [hv]
  have := hperm.map (walletTradeCount trades)
  rw [List.map_cons, herase] at this
  exact this

/-! Claim theorems. -/

/-- C1: for every set of six heuristic results, the ScoreAggregator
computes `score = 100 × Σ(weight_i × intensity_i)` with the fixed
weights concentration 0.25, min-size 0.20, timing 0.20, ping-pong 0.15,
round-trip 0.10, whips 0.10, where a heuristic contributes its intensity
only when triggered and contributes 0 otherwise regardless of its raw
intensity, and the result is clamped to [0,100]. -/
theorem scoreAggregator_weighted_sum_clamped
    (c m t p r w : HeuristicResult) (x : ℚ) :
    aggregateScore c m t p r w =
      max 0 (min 100 (100 *
        (0.25 * (if c.triggered then c.intensity else 0) +
          (0.20 * (if m.triggered then m.intensity else 0) +
            (0.20 * (if t.triggered then t.intensity else 0) +
              (0.15 * (if p.triggered then p.intensity else 0) +
                (0.10 * (if r.triggered then r.intensity else 0) +
                  0.10 * (if w.triggered then w.intensity else 0)))))))) ∧
    0 ≤ aggregateScore c m t p r w ∧
    aggregateScore c m t p r w ≤ 100 ∧
    (c.triggered = false →
      aggregateScore ⟨c.name, c.triggered, x, c.summary⟩ m t p r w =
        aggregateScore c m t p r w) := by
  refine ⟨?_, aggregateScore_nonneg c m t p r w, aggregateScore_le_100 c m t p r w, ?_⟩
  · simp [aggregateScore, scoreWeights, gatedIntensity]
  · intro hc
    simp [aggregateScore, scoreWeights, gatedIntensity, hc]

/-- Witness for C1 at a concrete untriggered result: changing the raw
intensity of an untriggered heuristic does not change the score. -/
theorem scoreAggregator_weighted_sum_clamped_witness :
    aggregateScore ⟨hrEx.name, hrEx.triggered, 7, hrEx.summary⟩ hrEx hrEx hrEx hrEx hrEx =
      aggregateScore hrEx hrEx hrEx hrEx hrEx hrEx :=
  (scoreAggregator_weighted_sum_clamped hrEx hrEx hrEx hrEx hrEx hrEx 7).2.2.2 rfl

/-- C2: the label is "normal" when score < 35, "watch" when
35 ≤ score < 60 and "suspicious" when score ≥ 60; the aggregated score
always lies in [0,100]; and the label is a pure, monotone function of
the score. -/
theorem scoreLabel_threshold_table_monotone
    (c m t p r w : HeuristicResult) (s u : ℚ) :
    (0 ≤ aggregateScore c m t p r w ∧ aggregateScore c m t p r w ≤ 100) ∧
    (labelFor s = "normal" ↔ s < 35) ∧
    (labelFor s = "watch" ↔ 35 ≤ s ∧ s < 60) ∧
    (labelFor s = "suspicious" ↔ 60 ≤ s) ∧
    (s ≤ u → labelRank (labelFor s) ≤ labelRank (labelFor u)) := by
  have hwn : ("watch" : String) ≠ "normal" := by decide
  have hsn : ("suspicious" : String) ≠ "normal" := by decide
  have hnw : ("normal" : String) ≠ "watch" := by decide
  have hsw : ("suspicious" : String) ≠ "watch" := by decide
  have hns : ("normal" : String) ≠ "suspicious" := by decide
  have hws : ("watch" : String) ≠ "suspicious" := by decide
  refine ⟨⟨aggregateScore_nonneg c m t p r w, aggregateScore_le_100 c m t p r w⟩,
    ?_, ?_, ?_, ?_⟩
  · unfold labelFor
    split_ifs with h1 h2 <;> simp_all
  · unfold labelFor
    split_ifs with h1 h2 <;> simp_all <;> linarith
  · unfold labelFor
    split_ifs with h1 h2 <;> simp_all <;> linarith
  · intro hsu
    unfold labelFor
    split_ifs <;>
      simp [labelRank_normal, labelRank_watch, labelRank_suspicious] <;> linarith

/-- Witness for C2 at concrete scores 10 ≤ 80: the label rank is
monotone and the concrete labels match the threshold table. -/
theorem scoreLabel_threshold_table_monotone_witness :
    labelRank (labelFor 10) ≤ labelRank (labelFor 80) ∧
    (labelFor 10 = "normal" ↔ (10 : ℚ) < 35) ∧
    (labelFor 80 = "suspicious" ↔ (60 : ℚ) ≤ 80) :=
  ⟨(scoreLabel_threshold_table_monotone hrEx hrEx hrEx hrEx hrEx hrEx 10 80).2.2.2.2
      (by norm_num),
    (scoreLabel_threshold_table_monotone hrEx hrEx hrEx hrEx hrEx hrEx 10 80).2.1,
    (scoreLabel_threshold_table_monotone hrEx hrEx hrEx hrEx hrEx hrEx 80 10).2.2.2.1⟩

/-- C3: the claimed shared edge-case policy fails for the wallet
concentration heuristic: on the empty trade list
`compute_wallet_concentration` evaluates `max(counts)` with `counts`
empty and raises (modelled as `none`) instead of returning
`triggered=false, intensity=0`; the other five heuristics do degrade to
`(false, 0)` on the empty list. -/
theorem heuristics_empty_trade_list (oms tick : ℚ) :
    computeWalletConcentration [] = none ∧
    computeMinSizeSpam [] oms = (false, 0) ∧
    computeTimingRegular [] = (false, 0) ∧
    computePingPong [] = (false, 0) ∧
    computeRoundTrips [] tick = (false, 0) ∧
    computeWhips [] = (false, 0) := by
  refine ⟨rfl, ?_, rfl, ?_, ?_, ?_⟩
  · simp +decide [computeMinSizeSpam]
  · simp +decide [computePingPong, pingPongMarked, tradeWallets, dedupFirst, dedupFirstAux,
      sortByTime, List.insertionSort]
    norm_num
  · simp +decide [computeRoundTrips, tradeWallets, dedupFirst, dedupFirstAux, sortByTime,
      List.insertionSort]
    norm_num
  · simp +decide [computeWhips, whipEpisodes, minuteVwapSeries, occupiedMinutes, dedupFirst,
      dedupFirstAux, List.insertionSort]

/-- C6: for every non-empty trade list (with non-zero total notional, so
that the notional share is defined), the wallet-concentration heuristic
triggers iff (top1 trade-share ≥ 0.60 and top1 notional-share ≥ 0.40) or
top3 trade-share ≥ 0.85, its intensity is max(top1 trade-share, top3
trade-share), and at 65% top1 trade share with 50% notional share it
triggers with intensity at least 0.65. -/
theorem walletConcentration_trigger_iff_and_scenario (trades : List Trade)
    (hne : trades ≠ []) (hnot : (walletNotionals trades).sum ≠ 0) :
    computeWalletConcentration trades =
      some (decide ((0.60 ≤ top1CountShare trades ∧ 0.40 ≤ top1NotionalShare trades) ∨
          0.85 ≤ top3CountShare trades),
        max (top1CountShare trades) (top3CountShare trades)) ∧
    ((computeWalletConcentration trades).map Prod.fst = some true ↔
      ((0.60 ≤ top1CountShare trades ∧ 0.40 ≤ top1NotionalShare trades) ∨
        0.85 ≤ top3CountShare trades)) ∧
    (top1CountShare trades = 13 / 20 → top1NotionalShare trades = 1 / 2 →
      (computeWalletConcentration trades).map Prod.fst = some true ∧
        (0.65 : ℚ) ≤ max (top1CountShare trades) (top3CountShare trades)) := by
  have hs := computeWalletConcentration_spec trades hne hnot
  refine ⟨hs, ?_, ?_⟩
  · rw [hs]
    simp
  · intro h1 h2
    constructor
    · rw [hs]
      simp
      left
      exact ⟨by rw [h1]; norm_num, by rw [h2]; norm_num⟩
    · have hle : (0.65 : ℚ) ≤ top1CountShare trades := by rw [h1]; norm_num
      exact hle.trans (le_max_left _ _)

/-- Witness for C6 at the 20-trade instance of the spec scenario: wallet
a executes 13 of 20 trades (65%) and half the notional, and the
heuristic triggers with intensity at least 0.65. -/
theorem walletConcentration_trigger_iff_and_scenario_witness :
    (computeWalletConcentration concScenario).map Prod.fst = some true ∧
      (0.65 : ℚ) ≤ max (top1CountShare concScenario) (top3CountShare concScenario) := by
  have hne : concScenario ≠ [] := by
    simp [concScenario, mkTradeRun, List.range, List.range.loop]
  have hnot : (walletNotionals concScenario).sum ≠ 0 := by
    simp +decide [walletNotionals, tradeWallets, dedupFirst, dedupFirstAux, concScenario,
      mkTradeRun, mkTrade, List.range, List.range.loop, List.filter]
    norm_num
  have h1 : top1CountShare concScenario = 13 / 20 := by
    simp +decide [top1CountShare, top1OfCounts, walletCounts, walletTradeCount, tradeWallets, dedupFirst,
      dedupFirstAux, pyMax, concScenario, mkTradeRun, mkTrade, List.range, List.range.loop,
      List.filter]
  have h2 : top1NotionalShare concScenario = 1 / 2 := by
    simp +decide [top1NotionalShare, walletNotionals, tradeWallets, dedupFirst,
      dedupFirstAux, pyMax, concScenario, mkTradeRun, mkTrade, List.range, List.range.loop,
      List.filter]
    norm_num [max_def]
  exact (walletConcentration_trigger_iff_and_scenario concScenario hne hnot).2.2 h1 h2

/-- C7 counterexample: wallet d's trade share rises (1 of 31 trades to 2
of 32) while wallets a, b and c keep 10 trades each, yet the
concentration intensity falls from 30/31 to 15/16. -/
theorem concentrationIntensity_not_monotone :
    computeWalletConcentration concL31 = some (true, 30 / 31) ∧
    computeWalletConcentration concL32 = some (true, 15 / 16) ∧
    (15 / 16 : ℚ) < 30 / 31 := by
  refine ⟨?_, ?_, by norm_num⟩ <;>
    (simp +decide [computeWalletConcentration, top1CountShare, top1NotionalShare,
      top3CountShare, top1OfCounts, top3OfCounts, walletCounts, walletTradeCount, walletNotionals, tradeWallets,
      dedupFirst, dedupFirstAux, pyMax, concL31, concL32, mkTradeRun, mkTrade,
      List.insertionSort, List.orderedInsert, List.filter, List.range, List.range.loop]
     norm_num [max_def])

/-- C7 amended: for every trade list and every wallet in it whose trade
count is at least the third-largest count among the other wallets (so
the wallet is inside the top three, or moves into it, after the
increase), adding one more trade by that wallet — holding the other
wallets' trades fixed — never decreases the concentration heuristic's
intensity; and that intensity is exactly the max of the top-1 and top-3
trade shares the first part speaks about.  Only a wallet staying
strictly outside the top three can decrease the intensity, as the
counterexample shows. -/
theorem concentrationIntensity_monotone_top3 (trades : List Trade) (t : Trade)
    (hmem : t.proxyWallet ∈ tradeWallets trades)
    (hrank : thirdLargestCount (otherWalletCounts trades t.proxyWallet) ≤
      walletTradeCount trades t.proxyWallet) :
    max (top1CountShare trades) (top3CountShare trades) ≤
      max (top1CountShare (t :: trades)) (top3CountShare (t :: trades)) ∧
    ∀ tr : List Trade, tr ≠ [] → (walletNotionals tr).sum ≠ 0 →
      (computeWalletConcentration tr).map Prod.snd =
        some (max (top1CountShare tr) (top3CountShare tr)) := by
  constructor
  · unfold top1CountShare top3CountShare
    rw [max_eq_right (top1_le_top3 (walletCounts trades)),
      max_eq_right (top1_le_top3 (walletCounts (t :: trades)))]
    rw [walletCounts_cons, top3OfCounts_congr (walletCounts_perm_decomp t trades hmem)]
    exact top3OfCounts_bump _ _ hrank
  · intro tr hne hnot
    rw [computeWalletConcentration_spec tr hne hnot]
    rfl

/-- Witness for C7 amended: wallet b holds 9 of 34 trades (counts 10, 9,
8, 7), at least the third-largest other count 7; one more trade by b
raises the intensity from 27/34 to 4/5. -/
theorem concentrationIntensity_monotone_top3_witness :
    max (top1CountShare concL34) (top3CountShare concL34) ≤
      max (top1CountShare (mkTrade "b" 400 1 (1/2) :: concL34))
        (top3CountShare (mkTrade "b" 400 1 (1/2) :: concL34)) ∧
    (computeWalletConcentration fetchDupHistory).map Prod.snd =
      some (max (top1CountShare fetchDupHistory) (top3CountShare fetchDupHistory)) := by
  have hmem : (mkTrade "b" 400 1 (1/2)).proxyWallet ∈ tradeWallets concL34 := by
    simp +decide [tradeWallets, dedupFirst, dedupFirstAux, concL34, mkTradeRun, mkTrade,
      List.range, List.range.loop]
  have hrank :
      thirdLargestCount (otherWalletCounts concL34 (mkTrade "b" 400 1 (1/2)).proxyWallet) ≤
        walletTradeCount concL34 (mkTrade "b" 400 1 (1/2)).proxyWallet := by
    simp +decide [thirdLargestCount, otherWalletCounts, walletTradeCount, tradeWallets,
      dedupFirst, dedupFirstAux, concL34, mkTradeRun, mkTrade, List.range, List.range.loop,
      List.filter, List.insertionSort, List.orderedInsert]
  have hne : fetchDupHistory ≠ [] := by simp [fetchDupHistory]
  have hnot : (walletNotionals fetchDupHistory).sum ≠ 0 := by
    simp +decide [walletNotionals, tradeWallets, dedupFirst, dedupFirstAux, fetchDupHistory,
      mkTrade, List.filter]
    norm_num
  exact ⟨(concentrationIntensity_monotone_top3 concL34 (mkTrade "b" 400 1 (1/2))
      hmem hrank).1,
    (concentrationIntensity_monotone_top3 concL34 (mkTrade "b" 400 1 (1/2))
      hmem hrank).2 fetchDupHistory hne hnot⟩

/-- C8 counterexample: a 24-trade list with 23 gaps whose CV is far above
0.35 and whose robust z-score is positive; the heuristic returns
`(false, 0)`, so its intensity (0) differs from the z-score floored at 0
that the claim asserts. -/
theorem timingIntensity_not_z :
    (timeGaps exTiming).length = 23 ∧
    computeTimingRegular exTiming = (false, 0) ∧
    timingMad exTiming ≠ 0 ∧
    (0 : ℚ) < timingZ exTiming ∧
    (computeTimingRegular exTiming).2 ≠ max 0 (timingZ exTiming) := by
  refine ⟨?_, ?_, ?_, ?_, ?_⟩ <;>
    (simp +decide [computeTimingRegular, timingCvOk, timingZ, timingMad, rpmSeries, gapListQ,
      timeGaps, sortedTimes, listMean, listVariance, listMedian, minuteBucket, pyMax, exTiming,
      mkTrade, List.insertionSort, List.orderedInsert, List.filter, List.range,
      List.range.loop, Int.fdiv] <;>
     norm_num [max_def])

/-- C8 amended: with at least 10 inter-arrival gaps and a non-zero MAD
(so that the float z-score is a number), the timing heuristic triggers
iff the CV of the gaps is below 0.35 and the robust z-score is at least
3.0; its intensity is the crude constant 3.0 when triggered and 0
otherwise, not the z-score; and a list with 9 gaps never triggers. -/
theorem timingRegularity_gate_and_crude_intensity (trades : List Trade)
    (h10 : ¬(timeGaps trades).length < 10) (hmad : timingMad trades ≠ 0) :
    ((computeTimingRegular trades).1 = true ↔
      (timingCvOk trades ∧ 3.0 ≤ timingZ trades)) ∧
    (computeTimingRegular trades).2 =
      (if (computeTimingRegular trades).1 = true then 3.0 else 0) ∧
    ∀ trades9 : List Trade, (timeGaps trades9).length = 9 →
      computeTimingRegular trades9 = (false, 0) := by
  refine ⟨?_, ?_, ?_⟩
  · unfold computeTimingRegular
    rw [if_neg h10]
    simp
  · unfold computeTimingRegular
    rw [if_neg h10]
  · intro trades9 h9
    unfold computeTimingRegular
    rw [if_pos (show (timeGaps trades9).length < 10 by rw [h9]; norm_num)]

/-- Witness for C8 amended at the 24-trade list: the gate and the crude
intensity equation hold there. -/
theorem timingRegularity_gate_and_crude_intensity_witness :
    ((computeTimingRegular exTiming).1 = true ↔
      (timingCvOk exTiming ∧ 3.0 ≤ timingZ exTiming)) ∧
    (computeTimingRegular exTiming).2 =
      (if (computeTimingRegular exTiming).1 = true then 3.0 else 0) := by
  have h10 : ¬(timeGaps exTiming).length < 10 := by
    simp +decide [timeGaps, sortedTimes, exTiming, mkTrade, List.insertionSort,
      List.orderedInsert]
  have hmad : timingMad exTiming ≠ 0 := by
    simp +decide [timingMad, rpmSeries, sortedTimes, listMedian, minuteBucket, exTiming,
      mkTrade, List.insertionSort, List.orderedInsert, List.range, List.range.loop, Int.fdiv]
    norm_num
  exact ⟨(timingRegularity_gate_and_crude_intensity exTiming h10 hmad).1,
    (timingRegularity_gate_and_crude_intensity exTiming h10 hmad).2.1⟩

lemma dedupTradesAux_key_mem (l : List Trade) :
    ∀ (seen : List (String × String × Option ℤ × ℚ × ℚ × ℤ)) (t : Trade),
      t ∈ l → tradeKey t ∉ seen →
      tradeKey t ∈ (dedupTradesAux seen l).map tradeKey := by
  induction l with
  | nil => intro seen t ht _; cases ht
  | cons a as ih =>
    intro seen t ht hs
    rcases List.mem_cons.1 ht with rfl | hmem
    · unfold dedupTradesAux
      rw [if_neg hs]
      simp
    · unfold dedupTradesAux
      by_cases hk : tradeKey a ∈ seen
      · rw [if_pos hk]
        exact ih seen t hmem hs
      · rw [if_neg hk]
        by_cases heq : tradeKey t = tradeKey a
        · simp [heq]
        · simp only [List.map_cons, List.mem_cons]
          right
          refine ih (tradeKey a :: seen) t hmem ?_
          intro hc
          rcases List.mem_cons.1 hc with h | h
          · exact heq h
          · exact hs h

lemma dedupTradesAux_pairwise (l : List Trade) :
    ∀ seen : List (String × String × Option ℤ × ℚ × ℚ × ℤ),
      List.Pairwise (fun a b => tradeKey a ≠ tradeKey b) (dedupTradesAux seen l) ∧
      ∀ u ∈ dedupTradesAux seen l, tradeKey u ∉ seen := by
  induction l with
  | nil =>
    intro seen
    exact ⟨List.Pairwise.nil, by simp [dedupTradesAux]⟩
  | cons a as ih =>
    intro seen
    unfold dedupTradesAux
    by_cases hk : tradeKey a ∈ seen
    · rw [if_pos hk]
      exact ih seen
    · rw [if_neg hk]
      obtain ⟨hpw, hni⟩ := ih (tradeKey a :: seen)
      refine ⟨List.Pairwise.cons ?_ hpw, ?_⟩
      · intro b hb hc
        exact hni b hb (by rw [← hc]; exact List.mem_cons_self _ _)
      · intro u hu
        rcases List.mem_cons.1 hu with rfl | hmem
        · exact hk
        · intro hc
          exact hni u hmem (List.mem_cons_of_mem _ hc)

/-- C5: no two trades retained in the fetcher's output share the full
tuple (txHash, conditionId, outcomeIndex, size, price, timestamp); the
output is exactly the deduplicated window that was reported, and every
trade of the history inside the reported window keeps exactly its key in
the output (duplicates collapse to one retained trade rather than zero). -/
theorem tradeFetcher_exact_tuple_dedup (history : List Trade) (now lb mw : ℤ) :
    List.Pairwise (fun a b => tradeKey a ≠ tradeKey b)
      (fetchTrades history now lb mw).1 ∧
    (fetchTrades history now lb mw).1 =
      fetchWindow history now (fetchTrades history now lb mw).2 ∧
    ∀ t ∈ history, now - (fetchTrades history now lb mw).2 ≤ t.timestamp →
      tradeKey t ∈ ((fetchTrades history now lb mw).1.map tradeKey) := by
  have hbr : (fetchTrades history now lb mw).1 =
      fetchWindow history now ((fetchTrades history now lb mw).2) := by
    unfold fetchTrades
    split_ifs <;> rfl
  refine ⟨?_, hbr, ?_⟩
  · rw [hbr]
    exact (dedupTradesAux_pairwise _ []).1
  · intro t ht hts
    rw [hbr]
    unfold fetchWindow dedupTrades
    apply dedupTradesAux_key_mem
    · exact List.mem_filter.2 ⟨ht, decide_eq_true hts⟩
    · simp

/-- Witness for C5 at a three-trade history holding an exact duplicate
pair: the duplicate collapses to one retained trade and trade b stays
present. -/
theorem tradeFetcher_exact_tuple_dedup_witness :
    List.Pairwise (fun a b => tradeKey a ≠ tradeKey b)
      (fetchTrades fetchDupHistory 3000 3600 maxWidenedLookbackSeconds).1 ∧
    tradeKey (mkTrade "b" 2000 1 (1/2)) ∈
      ((fetchTrades fetchDupHistory 3000 3600 maxWidenedLookbackSeconds).1.map tradeKey) := by
  have h2 : (fetchTrades fetchDupHistory 3000 3600 maxWidenedLookbackSeconds).2 = 3600 := by
    simp +decide [fetchTrades, fetchWindow, dedupTrades, dedupTradesAux, tradeKey,
      fetchDupHistory, mkTrade, maxWidenedLookbackSeconds, List.filter]
  refine ⟨(tradeFetcher_exact_tuple_dedup fetchDupHistory 3000 3600
    maxWidenedLookbackSeconds).1, ?_⟩
  refine (tradeFetcher_exact_tuple_dedup fetchDupHistory 3000 3600
    maxWidenedLookbackSeconds).2.2 (mkTrade "b" 2000 1 (1/2)) ?_ ?_
  · simp [fetchDupHistory]
  · rw [h2]
    norm_num [mkTrade]

/-- C4: when the requested window yields zero trades after dedup and the
requested lookback is below the 72h widened maximum, the fetcher retries
once with the widened window and reports it; with at least one trade of
the history inside 72h the returned list is non-empty and
`actualLookbackSeconds = 72 × 3600`. -/
theorem tradeFetcher_widening (history : List Trade) (now lb : ℤ) (t : Trade)
    (ht : t ∈ history) (hts : now - maxWidenedLookbackSeconds ≤ t.timestamp)
    (hempty : fetchWindow history now lb = [])
    (hlb : lb < maxWidenedLookbackSeconds) :
    fetchTrades history now lb maxWidenedLookbackSeconds =
      (fetchWindow history now maxWidenedLookbackSeconds,
        maxWidenedLookbackSeconds) ∧
    (fetchTrades history now lb maxWidenedLookbackSeconds).1 ≠ [] ∧
    (fetchTrades history now lb maxWidenedLookbackSeconds).2 = 72 * 3600 := by
  have heq : fetchTrades history now lb maxWidenedLookbackSeconds =
      (fetchWindow history now maxWidenedLookbackSeconds,
        maxWidenedLookbackSeconds) := by
    unfold fetchTrades
    rw [if_pos ⟨hempty, hlb⟩]
  refine ⟨heq, ?_, by rw [heq]; rfl⟩
  have hk : tradeKey t ∈
      (fetchWindow history now maxWidenedLookbackSeconds).map tradeKey := by
    unfold fetchWindow dedupTrades
    apply dedupTradesAux_key_mem
    · exact List.mem_filter.2 ⟨ht, decide_eq_true hts⟩
    · simp
  rw [heq]
  intro hcon
  have hwin : fetchWindow history now maxWidenedLookbackSeconds = [] := hcon
  rw [hwin] at hk
  simp at hk

/-- Witness for C4: a history with one trade at second 1000 seen from
second 200000 — a 1h window is empty, the widened 72h window holds the
trade. -/
theorem tradeFetcher_widening_witness :
    (fetchTrades fetchHistoryEx 200000 3600 maxWidenedLookbackSeconds).1 ≠ [] ∧
    (fetchTrades fetchHistoryEx 200000 3600 maxWidenedLookbackSeconds).2 = 72 * 3600 := by
  have ht : mkTrade "a" 1000 1 (1/2) ∈ fetchHistoryEx := by simp [fetchHistoryEx]
  have hts : (200000 : ℤ) - maxWidenedLookbackSeconds ≤
      (mkTrade "a" 1000 1 (1/2)).timestamp := by
    norm_num [maxWidenedLookbackSeconds, mkTrade]
  have hempty : fetchWindow fetchHistoryEx 200000 3600 = [] := by
    simp +decide [fetchWindow, dedupTrades, dedupTradesAux, fetchHistoryEx, mkTrade,
      List.filter]
  have hlb : (3600 : ℤ) < maxWidenedLookbackSeconds := by
    norm_num [maxWidenedLookbackSeconds]
  exact ⟨(tradeFetcher_widening fetchHistoryEx 200000 3600 (mkTrade "a" 1000 1 (1/2))
      ht hts hempty hlb).2.1,
    (tradeFetcher_widening fetchHistoryEx 200000 3600 (mkTrade "a" 1000 1 (1/2))
      ht hts hempty hlb).2.2⟩

/-- C9: the scoring pipeline is a pure function of the trade list, the
event metadata and the lookback — two runs on equal inputs produce equal
EventReport values (the embedding has no clock, randomness or other
hidden input). -/
theorem pipeline_deterministic (m1 m2 : EventMeta) (t1 t2 : List Trade)
    (lb1 lb2 : ℤ) (hm : m1 = m2) (ht : t1 = t2) (hl : lb1 = lb2) :
    buildEventReport m1 t1 lb1 = buildEventReport m2 t2 lb2 := by
  subst hm
  subst ht
  subst hl
  rfl

/-- Witness for C9 at a concrete metadata, trade list and lookback. -/
theorem pipeline_deterministic_witness :
    buildEventReport metaEx fetchDupHistory 86400 =
      buildEventReport metaEx fetchDupHistory 86400 :=
  pipeline_deterministic metaEx metaEx fetchDupHistory fetchDupHistory 86400 86400
    rfl rfl rfl

/-- C10: when the base URL is unset or the remote index fetch fails and
the local index file is missing, `getReportIndex` returns the empty
index (whose reports list is empty) instead of throwing; under the same
conditions for a report slug, `getReport` throws an Error. -/
theorem reportLoader_missing_fallbacks (env : ReportsEnv) (slug e1 e2 : String)
    (hidx : env.baseUrl = none ∨ env.remoteIndex = Except.error e1)
    (hloc : env.localIndex = LocalRead.enoent)
    (hrep : env.baseUrl = none ∨ env.remoteReport slug = Except.error e2)
    (hlocr : env.localReport slug = LocalRead.enoent) :
    getReportIndex env = Except.ok emptyReportIndex ∧
    emptyReportIndex.reports = [] ∧
    ∃ msg, getReport env slug = Except.error msg := by
  refine ⟨?_, rfl, ?_⟩
  · rcases hb : env.baseUrl with _ | u
    · simp [getReportIndex, hb, hloc]
    · rcases hidx with h | h
      · rw [h] at hb
        exact Option.noConfusion hb
      · simp [getReportIndex, hb, h, hloc]
  · rcases hb : env.baseUrl with _ | u
    · refine ⟨s!"Report {slug} not found locally. Run the exporter or set REPORTS_BASE_URL.", ?_⟩
      simp [getReport, hb, hlocr]
    · rcases hrep with h | h
      · rw [h] at hb
        exact Option.noConfusion hb
      · refine ⟨s!"Report {slug} not found remotely or locally.", ?_⟩
        simp [getReport, hb, h, hlocr]

/-- Witness for C10 at the environment with no base URL and no local
files. -/
theorem reportLoader_missing_fallbacks_witness :
    getReportIndex envEx = Except.ok emptyReportIndex ∧
    ∃ msg, getReport envEx "honduras" = Except.error msg := by
  have h := reportLoader_missing_fallbacks envEx "honduras" "e" "e"
    (Or.inl rfl) rfl (Or.inl rfl) rfl
  exact ⟨h.1, h.2.2⟩

end Polywatch
